import Mathlib

/-! Icon links for article URLs (`helper/toolx/icon_format.go`).

A shallow embedding of `GetIconLink` and of the two library functions it
calls, `strings.Contains` and `fmt.Sprintf`, followed by the properties of
the classification and of the HTML fragment it produces.

A Go `string` is an arbitrary sequence of bytes, so it is modelled as a list
of bytes; the result code is a Go `int`, modelled as `Int`.
-/

namespace toolx

/-! ## Strings -/

/-- Go strings are immutable byte sequences. -/
abbrev GoString := List UInt8

/-- The bytes of a string literal whose characters are all ASCII (every
literal of the source file is). -/
def ascii (s : String) : GoString := s.data.map (fun c => UInt8.ofNat c.toNat)

/-- Go `strings.HasPrefix(s, p)`: `s` begins with the bytes of `p`. -/
def HasPrefix : GoString → GoString → Bool
  | _, [] => true
  | [], _ :: _ => false
  | a :: s, b :: p => a == b && HasPrefix s p

/-- Left-to-right scan behind `strings.Index`: the offset (counted from `i`)
of the first position of `s` at which `substr` starts, `-1` when there is
none. -/
def indexFrom (substr : GoString) : GoString → Nat → Int
  | [], i => if HasPrefix [] substr then (i : Int) else -1
  | a :: s, i => if HasPrefix (a :: s) substr then (i : Int) else indexFrom substr s (i + 1)

/-- Go `strings.Index(s, substr)`: index of the first instance of `substr`
in `s`, or `-1` if `substr` is not present in `s`. -/
def Index (s substr : GoString) : Int := indexFrom substr s 0

/-- Go `strings.Contains(s, substr)`, which is `Index(s, substr) >= 0`. -/
def Contains (s substr : GoString) : Bool := decide (Index s substr ≥ 0)

/-! ## Formatting -/

/-- The byte `%`. -/
def pct : UInt8 := 37

/-- Rendering of the operands left over when the format is exhausted:
`string=a, string=b, ...`. -/
def extraArgs : List GoString → GoString
  | [] => []
  | [a] => ascii "string=" ++ a
  | a :: b :: rest => ascii "string=" ++ a ++ ascii ", " ++ extraArgs (b :: rest)

/-- What `fmt.Sprintf` appends once the format is exhausted: nothing when
every operand was consumed, `%!(EXTRA string=a, ...)` otherwise. -/
def extraReport : List GoString → GoString
  | [] => []
  | a :: args => ascii "%!(EXTRA " ++ extraArgs (a :: args) ++ ascii ")"

/-- The loop of `fmt.Sprintf` for operands of type `string`. Bytes other
than `%` are copied; `%%` gives `%`; `%s` and `%v` give the next operand
verbatim; a verb with no operand left gives `%!verb(MISSING)`; a `%` ending
the format gives `%!(NOVERB)`; operands left over are reported as
`%!(EXTRA ...)`. Any other verb byte is rendered as a bad verb,
`%!verb(string=operand)`; flags, widths and the verbs `q`, `x`, `X` are
outside this model (the format of this package uses none of them). -/
def Sprintf : GoString → List GoString → GoString
  | [], args => extraReport args
  | c :: rest, args =>
    if c ≠ pct then c :: Sprintf rest args
    else
      match rest with
      | [] => ascii "%!(NOVERB)" ++ extraReport args
      | v :: rest =>
        if v = pct then pct :: Sprintf rest args
        else
          match args with
          | [] => ascii "%!" ++ [v] ++ ascii "(MISSING)" ++ Sprintf rest []
          | a :: args =>
            if v = 115 ∨ v = 118 then a ++ Sprintf rest args
            else ascii "%!" ++ [v] ++ ascii "(string=" ++ a ++ ascii ")" ++ Sprintf rest args

/-! ## The source file -/

def icoFormat : GoString := ascii "[<img src=\"%s\" weight=\"20\" height=\"20\">](%s)"

def wechatIcoUrl : GoString := ascii "https://mp.weixin.qq.com/favicon.ico"
def wechatHost : GoString := ascii "mp.weixin.qq.com"

def juejinIcoUrl : GoString := ascii "https://juejin.cn/favicon.ico"
def juejinHost : GoString := ascii "juejin.cn"

def zhihuIcoUrl : GoString := ascii "https://static.zhihu.com/heifetz/favicon.ico"
def zhihuHost : GoString := ascii "zhuanlan.zhihu.com"

def tencentIcoUrl : GoString := ascii "https://cloud.tencent.com/favicon.ico"
def tencentHost : GoString := ascii "cloud.tencent.com"

def csdnIcoUrl : GoString := ascii "https://blog.csdn.net/favicon.ico"
def csdnHost : GoString := ascii "blog.csdn.net"

def jianshuIcoUrl : GoString := ascii "https://www.jianshu.com/favicon.ico"
def jianshuHost : GoString := ascii "jianshu.com"

def infoqIcoUrl : GoString :=
  ascii "https://static001.infoq.cn/static/infoq/favicon/favicon-32x32.png"
def infoqHost : GoString := ascii "infoq.cn"

def IcoUnknown : Int := 0
def IcoWechat : Int := 1
def IcoJuejin : Int := 2
def IcoZhihu : Int := 3
def IcoTencent : Int := 4
def IcoCsdn : Int := 5
def IcoJianshu : Int := 6
def IcoInfoq : Int := 7

def IcoMin : Int := 1
def IcoMax : Int := 7

/-- The function `GetIconLink` of the source: the chain of `strings.Contains`
tests, each returning the formatted fragment and the platform code. -/
def GetIconLink (articleUrl : GoString) : GoString × Int :=
  if Contains articleUrl wechatHost then
    (Sprintf icoFormat [wechatIcoUrl, articleUrl], IcoWechat)
  else if Contains articleUrl juejinHost then
    (Sprintf icoFormat [juejinIcoUrl, articleUrl], IcoJuejin)
  else if Contains articleUrl zhihuHost then
    (Sprintf icoFormat [zhihuIcoUrl, articleUrl], IcoZhihu)
  else if Contains articleUrl tencentHost then
    (Sprintf icoFormat [tencentIcoUrl, articleUrl], IcoTencent)
  else if Contains articleUrl csdnHost then
    (Sprintf icoFormat [csdnIcoUrl, articleUrl], IcoCsdn)
  else if Contains articleUrl jianshuHost then
    (Sprintf icoFormat [jianshuIcoUrl, articleUrl], IcoJianshu)
  else if Contains articleUrl infoqHost then
    (Sprintf icoFormat [infoqIcoUrl, articleUrl], IcoInfoq)
  else
    ([], IcoUnknown)

/-! ## The specification's reading: an ordered table, first match wins -/

/-- A known platform as the specification records it. -/
structure KnownPlatform where
  code : Int
  hostSubstring : GoString
  iconUrl : GoString
  deriving DecidableEq

/-- The fixed table of the specification, in declaration order (Wechat,
Juejin, Zhihu, Tencent, Csdn, Jianshu, Infoq). -/
def platformTable : List KnownPlatform :=
  [ ⟨1, ascii "mp.weixin.qq.com", ascii "https://mp.weixin.qq.com/favicon.ico"⟩,
    ⟨2, ascii "juejin.cn", ascii "https://juejin.cn/favicon.ico"⟩,
    ⟨3, ascii "zhuanlan.zhihu.com", ascii "https://static.zhihu.com/heifetz/favicon.ico"⟩,
    ⟨4, ascii "cloud.tencent.com", ascii "https://cloud.tencent.com/favicon.ico"⟩,
    ⟨5, ascii "blog.csdn.net", ascii "https://blog.csdn.net/favicon.ico"⟩,
    ⟨6, ascii "jianshu.com", ascii "https://www.jianshu.com/favicon.ico"⟩,
    ⟨7, ascii "infoq.cn",
      ascii "https://static001.infoq.cn/static/infoq/favicon/favicon-32x32.png"⟩ ]

/-- `sub` occurs in `s` as a contiguous substring. -/
def Occurs (sub s : GoString) : Prop := ∃ before after, s = before ++ sub ++ after

instance (sub s : GoString) : Decidable (Occurs sub s) :=
  decidable_of_iff (sub <:+: s) ⟨fun ⟨a, b, h⟩ => ⟨a, b, h.symm⟩, fun ⟨a, b, h⟩ => ⟨a, b, h.symm⟩⟩

/-- The first entry of `table`, in order, whose host occurs in `articleUrl`. -/
def firstMatch (table : List KnownPlatform) (articleUrl : GoString) : Option KnownPlatform :=
  table.find? (fun e => decide (Occurs e.hostSubstring articleUrl))

/-- The reference classification: the code of the first matching entry of the
ordered table, `0` when no entry matches. -/
def firstMatchCode (articleUrl : GoString) : Int :=
  match firstMatch platformTable articleUrl with
  | some e => e.code
  | none => 0

/-- The icon URL of the platform with code `c`, from the fixed table. -/
def iconUrl (c : Int) : GoString :=
  match platformTable.find? (fun e => e.code = c) with
  | some e => e.iconUrl
  | none => []

/-- The output format of the specification,
`[<img src="ICON_URL" weight="20" height="20">](ARTICLE_URL)`. -/
def iconLinkHtml (icon articleUrl : GoString) : GoString :=
  ascii "[<img src=\"" ++ icon ++ ascii "\" weight=\"20\" height=\"20\">](" ++ articleUrl
    ++ ascii ")"

/-- The reference result: fragment and code of the first matching entry,
the empty string and `0` when there is none. -/
def resolve (articleUrl : GoString) : GoString × Int :=
  match firstMatch platformTable articleUrl with
  | some e => (iconLinkHtml e.iconUrl articleUrl, e.code)
  | none => ([], 0)

/-- The lower-case form of an ASCII letter `A`..`Z`; every other byte is
left as it is. -/
def lowerByte (b : UInt8) : UInt8 := if 65 ≤ b ∧ b ≤ 90 then b + 32 else b

/-- A string with its ASCII letters put in lower case: two strings that
differ only in letter case have the same image. -/
def lowerAscii (s : GoString) : GoString := s.map lowerByte

/-! ## Library functions meet their documentation -/

theorem hasPrefix_iff (s p : GoString) : HasPrefix s p = true ↔ ∃ t, s = p ++ t := by
  induction p generalizing s with
  | nil => simp [HasPrefix]
  | cons b p ih =>
    cases s with
    | nil => simp [HasPrefix]
    | cons a s =>
      simp only [HasPrefix, Bool.and_eq_true, beq_iff_eq, ih, List.cons_append, List.cons.injEq]
      constructor
      · rintro ⟨rfl, t, rfl⟩
        exact ⟨t, rfl, rfl⟩
      · rintro ⟨t, rfl, rfl⟩
        exact ⟨rfl, t, rfl⟩

theorem indexFrom_nonneg_iff (sub s : GoString) (i : Nat) :
    0 ≤ indexFrom sub s i ↔ Occurs sub s := by
  induction s generalizing i with
  | nil =>
    cases sub with
    | nil => simpa [indexFrom, HasPrefix] using ⟨[], [], rfl⟩
    | cons b p =>
      simp only [indexFrom, HasPrefix, Bool.false_eq_true, if_false]
      constructor
      · intro h
        omega
      · rintro ⟨x, y, h⟩
        simp at h
  | cons a s ih =>
    simp only [indexFrom]
    by_cases hp : HasPrefix (a :: s) sub = true
    · simp only [hp, if_true]
      obtain ⟨t, ht⟩ := (hasPrefix_iff _ _).1 hp
      exact ⟨fun _ => ⟨[], t, by simpa using ht⟩, fun _ => Int.natCast_nonneg i⟩
    · simp only [hp, if_false, Bool.false_eq_true, ih]
      constructor
      · rintro ⟨x, y, h⟩
        exact ⟨a :: x, y, by simp [h]⟩
      · rintro ⟨x, y, h⟩
        cases x with
        | nil => exact absurd ((hasPrefix_iff _ _).2 ⟨y, by simpa using h⟩) hp
        | cons c x =>
          simp only [List.cons_append, List.cons.injEq] at h
          exact ⟨x, y, h.2⟩

/-- The model of `strings.Contains` decides the contiguous-substring relation. -/
theorem contains_iff (s sub : GoString) : Contains s sub = true ↔ Occurs sub s := by
  simp [Contains, Index, indexFrom_nonneg_iff]

theorem sprintf_literal (lit rest : GoString) (args : List GoString)
    (h : ∀ c ∈ lit, c ≠ pct) : Sprintf (lit ++ rest) args = lit ++ Sprintf rest args := by
  induction lit with
  | nil => rfl
  | cons c lit ih =>
    have hc : c ≠ pct := h c (List.mem_cons_self _ _)
    have ih2 := ih (fun d hd => h d (List.mem_cons_of_mem _ hd))
    rw [List.cons_append, Sprintf.eq_def]
    simp only [ne_eq, hc, not_false_eq_true, if_true, ih2, List.cons_append]

theorem sprintf_verb_s (rest a : GoString) (args : List GoString) :
    Sprintf (pct :: 115 :: rest) (a :: args) = a ++ Sprintf rest args := by
  rw [Sprintf.eq_def]
  simp [pct]

/-- Formatting `icoFormat` with an icon URL and an article URL yields the
fragment of the specification, both operands inserted verbatim. -/
theorem sprintf_icoFormat (icon articleUrl : GoString) :
    Sprintf icoFormat [icon, articleUrl] = iconLinkHtml icon articleUrl := by
  have h : icoFormat = ascii "[<img src=\"" ++ (pct :: 115 ::
      (ascii "\" weight=\"20\" height=\"20\">](" ++ (pct :: 115 :: (ascii ")" ++ [])))) := by
    decide
  rw [h, sprintf_literal _ _ _ (by decide), sprintf_verb_s,
    sprintf_literal _ _ _ (by decide), sprintf_verb_s, sprintf_literal _ _ _ (by decide)]
  simp [iconLinkHtml, Sprintf, extraReport]

/-! ## The code refines the ordered-table reading -/

/-- On every input the chain of tests of `GetIconLink` returns what the
first-match search of the ordered table returns. -/
theorem getIconLink_eq_resolve (u : GoString) : GetIconLink u = resolve u := by
  simp only [GetIconLink, resolve, firstMatch, platformTable, List.find?_cons, List.find?_nil,
    contains_iff, sprintf_icoFormat, wechatHost, juejinHost, zhihuHost, tencentHost, csdnHost,
    jianshuHost, infoqHost, wechatIcoUrl, juejinIcoUrl, zhihuIcoUrl, tencentIcoUrl, csdnIcoUrl,
    jianshuIcoUrl, infoqIcoUrl, IcoWechat, IcoJuejin, IcoZhihu, IcoTencent, IcoCsdn, IcoJianshu,
    IcoInfoq, IcoUnknown]
  split_ifs <;> simp [*]

theorem firstMatch_eq_none_iff (table : List KnownPlatform) (u : GoString) :
    firstMatch table u = none ↔ ∀ e ∈ table, ¬ Occurs e.hostSubstring u := by
  simp [firstMatch]

theorem firstMatch_eq_some_iff (table : List KnownPlatform) (u : GoString) (e : KnownPlatform) :
    firstMatch table u = some e ↔
      Occurs e.hostSubstring u ∧
        ∃ pre post, table = pre ++ e :: post ∧ ∀ q ∈ pre, ¬ Occurs q.hostSubstring u := by
  simp [firstMatch, List.find?_eq_some]

theorem mem_of_firstMatch (table : List KnownPlatform) (u : GoString) (e : KnownPlatform)
    (h : firstMatch table u = some e) : e ∈ table :=
  List.mem_of_find?_eq_some h

/-- The first match of a table in which `p` matches lies at or before `p`. -/
theorem firstMatch_mem_upto (l1 rest : List KnownPlatform) (p e : KnownPlatform) (u : GoString)
    (hp : Occurs p.hostSubstring u) (h : firstMatch (l1 ++ p :: rest) u = some e) :
    e ∈ l1 ++ [p] := by
  simp only [firstMatch, List.find?_append, List.find?_cons, hp, decide_True] at h
  cases hl : List.find? (fun e => decide (Occurs e.hostSubstring u)) l1 with
  | none =>
    rw [hl] at h
    simp only [Option.or, Option.some.injEq] at h
    simp [h]
  | some x =>
    rw [hl] at h
    simp only [Option.or, Option.some.injEq] at h
    subst h
    simp [List.mem_of_find?_eq_some hl]

theorem platformTable_codes_nodup : (platformTable.map (fun e => e.code)).Nodup := by
  decide

theorem platformTable_code_range : ∀ e ∈ platformTable, 1 ≤ e.code ∧ e.code ≤ 7 := by
  decide

theorem platformTable_iconUrl : ∀ e ∈ platformTable, iconUrl e.code = e.iconUrl := by
  decide

theorem iconLinkHtml_ne_nil (icon u : GoString) : iconLinkHtml icon u ≠ [] := by
  intro h
  have := congrArg List.length h
  simp [iconLinkHtml, ascii] at this

theorem occurs_icon_iconLinkHtml (icon u : GoString) : Occurs icon (iconLinkHtml icon u) :=
  ⟨ascii "[<img src=\"", ascii "\" weight=\"20\" height=\"20\">](" ++ u ++ ascii ")", by
    simp [iconLinkHtml]⟩

theorem occurs_url_iconLinkHtml (icon u : GoString) : Occurs u (iconLinkHtml icon u) :=
  ⟨ascii "[<img src=\"" ++ icon ++ ascii "\" weight=\"20\" height=\"20\">](", ascii ")", by
    simp [iconLinkHtml]⟩

theorem occurs_trans (h u w : GoString) (hu : Occurs h u) (hw : Occurs u w) : Occurs h w := by
  obtain ⟨a, b, rfl⟩ := hu
  obtain ⟨c, d, rfl⟩ := hw
  exact ⟨c ++ a, b ++ d, by simp⟩

theorem platformTable_codes_sorted : platformTable.Pairwise (fun a b => a.code < b.code) := by
  decide

/-- When the host of `e` occurs in `w`, the code `GetIconLink` gives `w` is
that of `e` or of an entry declared before it. -/
theorem resolve_code_le (pre post : List KnownPlatform) (e : KnownPlatform) (w : GoString)
    (ht : platformTable = pre ++ e :: post) (he : Occurs e.hostSubstring w) :
    1 ≤ (resolve w).2 ∧ (resolve w).2 ≤ e.code := by
  unfold resolve
  cases hm : firstMatch platformTable w with
  | none =>
    exact absurd he ((firstMatch_eq_none_iff _ _).1 hm e (by simp [ht]))
  | some x =>
    show 1 ≤ x.code ∧ x.code ≤ e.code
    refine ⟨(platformTable_code_range x (mem_of_firstMatch _ _ _ hm)).1, ?_⟩
    have hx : x ∈ pre ++ [e] := firstMatch_mem_upto pre post e x w he (ht ▸ hm)
    have hs := platformTable_codes_sorted
    rw [ht, List.pairwise_append] at hs
    rcases List.mem_append.1 hx with h1 | h1
    · exact le_of_lt (hs.2.2 x h1 e (List.mem_cons_self _ _))
    · rw [List.mem_singleton.1 h1]

/-- Two strings with a common extension: one begins with the other. -/
theorem hasPrefix_of_append_eq (a b x y : GoString) (h : a ++ x = b ++ y) :
    HasPrefix b a = true ∨ HasPrefix a b = true := by
  rcases List.append_eq_append_iff.1 h with ⟨t, hb, _⟩ | ⟨t, ha, _⟩
  · exact Or.inl ((hasPrefix_iff _ _).2 ⟨t, hb⟩)
  · exact Or.inr ((hasPrefix_iff _ _).2 ⟨t, ha⟩)

theorem platformTable_icon_not_nested :
    ∀ e ∈ platformTable, ∀ e2 ∈ platformTable,
      HasPrefix e2.iconUrl e.iconUrl = true → e = e2 := by
  decide

/-- The fragment determines both the table entry and the URL it was built
from. -/
theorem iconLinkHtml_inj (e e2 : KnownPlatform) (u v : GoString) (he : e ∈ platformTable)
    (he2 : e2 ∈ platformTable)
    (h : iconLinkHtml e.iconUrl u = iconLinkHtml e2.iconUrl v) : e = e2 ∧ u = v := by
  simp only [iconLinkHtml, List.append_assoc] at h
  have h1 := List.append_cancel_left h
  have hee : e = e2 := by
    rcases hasPrefix_of_append_eq _ _ _ _ h1 with hp | hp
    · exact platformTable_icon_not_nested e he e2 he2 hp
    · exact (platformTable_icon_not_nested e2 he2 e he hp).symm
  subst hee
  exact ⟨rfl, List.append_cancel_right (List.append_cancel_left (List.append_cancel_left h1))⟩

/-- An occurrence of `h` in a string cut at a byte that `h` does not contain
lies on one side of the cut. -/
theorem occurs_split (h A B : GoString) (x : UInt8) (hx : x ∉ h)
    (ho : Occurs h (A ++ x :: B)) : Occurs h A ∨ Occurs h B := by
  obtain ⟨s, t, hst⟩ := ho
  rw [List.append_assoc] at hst
  rcases List.append_eq_append_iff.1 hst with ⟨a1, hs, hB⟩ | ⟨c1, hA, hht⟩
  · -- the occurrence starts at or after the cut
    cases a1 with
    | nil =>
      simp only [List.nil_append] at hB
      cases h with
      | nil => exact Or.inl ⟨A, [], by simp⟩
      | cons b h1 =>
        simp only [List.cons_append, List.cons.injEq] at hB
        exact absurd (hB.1 ▸ List.mem_cons_self _ _) hx
    | cons b a2 =>
      simp only [List.cons_append, List.cons.injEq] at hB
      exact Or.inr ⟨a2, t, by simp [hB.2]⟩
  · -- the occurrence starts before the cut
    rcases List.append_eq_append_iff.1 hht with ⟨d, hc1, _⟩ | ⟨d, hh, hxB⟩
    · exact Or.inl ⟨s, d, by simp [hA, hc1]⟩
    · cases d with
      | nil =>
        simp only [List.append_nil] at hh
        exact Or.inl ⟨s, [], by simp [hA, hh]⟩
      | cons b d1 =>
        simp only [List.cons_append, List.cons.injEq] at hxB
        exact absurd (by simp [hh, hxB.1]) hx

/-- An occurrence in the fragment of a string free of parentheses lies in the
part before the opening parenthesis or in the URL. -/
theorem occurs_iconLinkHtml_cases (h icon u : GoString) (h40 : (40 : UInt8) ∉ h)
    (h41 : (41 : UInt8) ∉ h) (hne : h ≠ [])
    (ho : Occurs h (iconLinkHtml icon u)) :
    Occurs h (ascii "[<img src=\"" ++ icon ++ ascii "\" weight=\"20\" height=\"20\">]") ∨
      Occurs h u := by
  have e1 : ascii "\" weight=\"20\" height=\"20\">](" =
      ascii "\" weight=\"20\" height=\"20\">]" ++ [40] := by decide
  have e2 : ascii ")" = [41] := by decide
  have hform : iconLinkHtml icon u =
      (ascii "[<img src=\"" ++ icon ++ ascii "\" weight=\"20\" height=\"20\">]") ++
        40 :: (u ++ 41 :: []) := by
    simp [iconLinkHtml, e1, e2]
  rw [hform] at ho
  rcases occurs_split _ _ _ _ h40 ho with h1 | h1
  · exact Or.inl h1
  · rcases occurs_split _ _ _ _ h41 h1 with h2 | h2
    · exact Or.inr h2
    · obtain ⟨a, b, hab⟩ := h2
      simp at hab
      exact absurd hab.2.1 hne

theorem platformTable_host_chars :
    ∀ e ∈ platformTable,
      (40 : UInt8) ∉ e.hostSubstring ∧ (41 : UInt8) ∉ e.hostSubstring ∧ e.hostSubstring ≠ [] := by
  decide

set_option maxRecDepth 100000 in
/-- The text put before the URL for a platform holds the host of no
earlier-declared platform. -/
theorem platformTable_head_clean :
    platformTable.Pairwise (fun q e => ¬ Occurs q.hostSubstring
      (ascii "[<img src=\"" ++ e.iconUrl ++ ascii "\" weight=\"20\" height=\"20\">]")) := by
  decide

/-- C1: the code returned by `GetIconLink` is the code of the first entry of
the ordered table (mp.weixin.qq.com 1, juejin.cn 2, zhuanlan.zhihu.com 3,
cloud.tencent.com 4, blog.csdn.net 5, jianshu.com 6, infoq.cn 7) whose host
occurs in the URL as a contiguous substring, and `0` when no host occurs. -/
theorem getIconLink_code_eq_firstMatchCode (articleUrl : GoString) :
    (GetIconLink articleUrl).2 = firstMatchCode articleUrl := by
  rw [getIconLink_eq_resolve, resolve, firstMatchCode]
  cases firstMatch platformTable articleUrl <;> rfl

/-- C2: whenever `GetIconLink` returns a code `c` in 1..7, the returned html
is exactly `[<img src="` ++ iconUrl c ++ `" weight="20" height="20">](` ++
articleUrl ++ `)`, with the icon URL of platform `c` from the fixed table, the
attribute spelled `weight`, and articleUrl inserted unchanged. -/
theorem getIconLink_html_exact (articleUrl : GoString) (c : Int)
    (hc : (GetIconLink articleUrl).2 = c) (h1 : 1 ≤ c) (h7 : c ≤ 7) :
    (GetIconLink articleUrl).1 =
      ascii "[<img src=\"" ++ iconUrl c ++ ascii "\" weight=\"20\" height=\"20\">](" ++ articleUrl
        ++ ascii ")" := by
  rw [getIconLink_eq_resolve] at hc ⊢
  unfold resolve at hc ⊢
  cases hm : firstMatch platformTable articleUrl with
  | none =>
    rw [hm] at hc
    simp only at hc
    omega
  | some e =>
    rw [hm] at hc
    simp only at hc
    subst hc
    simp only [iconLinkHtml, platformTable_iconUrl e (mem_of_firstMatch _ _ _ hm)]

theorem getIconLink_html_exact_witness :
    (GetIconLink (ascii "https://juejin.cn/post/999")).2 = 2 ∧ (1 : Int) ≤ 2 ∧ (2 : Int) ≤ 7 ∧
      (GetIconLink (ascii "https://juejin.cn/post/999")).1 =
        ascii "[<img src=\"" ++ iconUrl 2 ++ ascii "\" weight=\"20\" height=\"20\">]("
          ++ ascii "https://juejin.cn/post/999" ++ ascii ")" :=
  ⟨by decide, by decide, by decide,
    getIconLink_html_exact (ascii "https://juejin.cn/post/999") 2 (by decide) (by decide)
      (by decide)⟩

/-- C3: a URL that contains none of the 7 host substrings yields exactly
`("", 0)`; in particular "https://example.org/post/999" does. -/
theorem getIconLink_no_host :
    (∀ articleUrl : GoString,
        ¬ Occurs (ascii "mp.weixin.qq.com") articleUrl →
        ¬ Occurs (ascii "juejin.cn") articleUrl →
        ¬ Occurs (ascii "zhuanlan.zhihu.com") articleUrl →
        ¬ Occurs (ascii "cloud.tencent.com") articleUrl →
        ¬ Occurs (ascii "blog.csdn.net") articleUrl →
        ¬ Occurs (ascii "jianshu.com") articleUrl →
        ¬ Occurs (ascii "infoq.cn") articleUrl →
        GetIconLink articleUrl = ([], 0)) ∧
      GetIconLink (ascii "https://example.org/post/999") = ([], 0) := by
  refine ⟨?_, by decide⟩
  intro u h1 h2 h3 h4 h5 h6 h7
  have hn : firstMatch platformTable u = none := by
    rw [firstMatch_eq_none_iff]
    simp [platformTable, h1, h2, h3, h4, h5, h6, h7]
  rw [getIconLink_eq_resolve, resolve, hn]

theorem getIconLink_no_host_witness :
    ¬ Occurs (ascii "mp.weixin.qq.com") (ascii "https://go.dev/doc/") ∧
      GetIconLink (ascii "https://go.dev/doc/") = ([], 0) :=
  ⟨by decide, getIconLink_no_host.1 (ascii "https://go.dev/doc/") (by decide) (by decide)
    (by decide) (by decide) (by decide) (by decide) (by decide)⟩

/-- C4 as stated fails: "https://juejin.cn/?from=mp.weixin.qq.com" contains
the host of Juejin (code 2), yet the code returned is 1, not 2. -/
theorem getIconLink_later_host_counterexample :
    Occurs (ascii "juejin.cn") (ascii "https://juejin.cn/?from=mp.weixin.qq.com") ∧
      (GetIconLink (ascii "https://juejin.cn/?from=mp.weixin.qq.com")).2 = 1 ∧
      (GetIconLink (ascii "https://juejin.cn/?from=mp.weixin.qq.com")).2 ≠ 2 := by
  decide

/-- C4, amended: for each platform `p` of the table (`earlier` being the
entries declared before it) and every URL that contains the host of `p` and
the host of no earlier-declared platform, `GetIconLink` returns the code of
`p`, and the html contains both the icon URL of `p` and the URL as
contiguous substrings. -/
theorem getIconLink_first_host (earlier later : List KnownPlatform) (p : KnownPlatform)
    (articleUrl : GoString) (ht : platformTable = earlier ++ p :: later)
    (hp : Occurs p.hostSubstring articleUrl)
    (he : ∀ q ∈ earlier, ¬ Occurs q.hostSubstring articleUrl) :
    (GetIconLink articleUrl).2 = p.code ∧
      Occurs p.iconUrl (GetIconLink articleUrl).1 ∧
      Occurs articleUrl (GetIconLink articleUrl).1 := by
  have hm : firstMatch platformTable articleUrl = some p :=
    (firstMatch_eq_some_iff _ _ _).2 ⟨hp, earlier, later, ht, he⟩
  rw [getIconLink_eq_resolve, resolve, hm]
  exact ⟨rfl, occurs_icon_iconLinkHtml _ _, occurs_url_iconLinkHtml _ _⟩

theorem getIconLink_first_host_witness :
    (GetIconLink (ascii "see https://www.jianshu.com/p/1?x=infoq.cn")).2 = 6 ∧
      Occurs (ascii "https://www.jianshu.com/favicon.ico")
        (GetIconLink (ascii "see https://www.jianshu.com/p/1?x=infoq.cn")).1 ∧
      Occurs (ascii "see https://www.jianshu.com/p/1?x=infoq.cn")
        (GetIconLink (ascii "see https://www.jianshu.com/p/1?x=infoq.cn")).1 :=
  getIconLink_first_host (platformTable.take 5)
    [⟨7, ascii "infoq.cn",
      ascii "https://static001.infoq.cn/static/infoq/favicon/favicon-32x32.png"⟩]
    ⟨6, ascii "jianshu.com", ascii "https://www.jianshu.com/favicon.ico"⟩
    (ascii "see https://www.jianshu.com/p/1?x=infoq.cn") (by decide) (by decide) (by decide)

/-- C5: when the URL contains the hosts of two different platforms, `p`
declared before `q`, `GetIconLink` never returns the code of `q`; and when the
URL contains the host of no third platform, it returns the code and html of
`p`, wherever the two hosts stand inside the URL; e.g.
"https://infoq.cn/?ref=mp.weixin.qq.com" yields code 1. -/
theorem getIconLink_two_hosts :
    (∀ (l1 l2 l3 : List KnownPlatform) (p q : KnownPlatform) (articleUrl : GoString),
        platformTable = l1 ++ p :: l2 ++ q :: l3 →
        Occurs p.hostSubstring articleUrl →
        Occurs q.hostSubstring articleUrl →
        (GetIconLink articleUrl).2 ≠ q.code ∧
          ((∀ r ∈ l1 ++ l2 ++ l3, ¬ Occurs r.hostSubstring articleUrl) →
            GetIconLink articleUrl = (iconLinkHtml p.iconUrl articleUrl, p.code))) ∧
      (GetIconLink (ascii "https://infoq.cn/?ref=mp.weixin.qq.com")).2 = 1 := by
  refine ⟨?_, by decide⟩
  intro l1 l2 l3 p q u ht hp hq
  constructor
  · rw [getIconLink_eq_resolve, resolve]
    cases hm : firstMatch platformTable u with
    | none =>
      have hq7 : 1 ≤ q.code := (platformTable_code_range q (by simp [ht])).1
      show (0 : Int) ≠ q.code
      omega
    | some e =>
      show e.code ≠ q.code
      have hmem : e ∈ l1 ++ [p] := by
        apply firstMatch_mem_upto l1 (l2 ++ q :: l3) p e u hp
        rw [← hm, ht]
        simp
      have hnd := platformTable_codes_nodup
      rw [ht, show l1 ++ p :: l2 ++ q :: l3 = (l1 ++ [p]) ++ (l2 ++ q :: l3) by simp,
        List.map_append, List.nodup_append] at hnd
      intro hcode
      exact hnd.2.2 (List.mem_map_of_mem (fun e => e.code) hmem)
        (hcode ▸ List.mem_map_of_mem (fun e => e.code) (by simp : q ∈ l2 ++ q :: l3))
  · intro hthird
    have hm : firstMatch platformTable u = some p :=
      (firstMatch_eq_some_iff _ _ _).2
        ⟨hp, l1, l2 ++ q :: l3, by simp [ht], fun r hr => hthird r (by simp [hr])⟩
    rw [getIconLink_eq_resolve, resolve, hm]

theorem getIconLink_two_hosts_witness :
    (GetIconLink (ascii "https://blog.csdn.net/a?next=cloud.tencent.com/b")).2 ≠ 5 ∧
      (GetIconLink (ascii "https://cloud.tencent.com/a?next=blog.csdn.net/b")).2 = 4 :=
  ⟨(getIconLink_two_hosts.1 (platformTable.take 3) [] (platformTable.drop 5)
      ⟨4, ascii "cloud.tencent.com", ascii "https://cloud.tencent.com/favicon.ico"⟩
      ⟨5, ascii "blog.csdn.net", ascii "https://blog.csdn.net/favicon.ico"⟩
      (ascii "https://blog.csdn.net/a?next=cloud.tencent.com/b")
      (by decide) (by decide) (by decide)).1,
    congrArg Prod.snd ((getIconLink_two_hosts.1 (platformTable.take 3) [] (platformTable.drop 5)
      ⟨4, ascii "cloud.tencent.com", ascii "https://cloud.tencent.com/favicon.ico"⟩
      ⟨5, ascii "blog.csdn.net", ascii "https://blog.csdn.net/favicon.ico"⟩
      (ascii "https://cloud.tencent.com/a?next=blog.csdn.net/b")
      (by decide) (by decide) (by decide)).2 (by decide))⟩

/-- C6: the code returned by `GetIconLink` is 0 exactly when the returned
html is the empty string: code = 0 implies html = "", and code ≠ 0 implies
html ≠ "". -/
theorem getIconLink_code_zero_iff_html_empty (articleUrl : GoString) :
    ((GetIconLink articleUrl).2 = 0 → (GetIconLink articleUrl).1 = []) ∧
      ((GetIconLink articleUrl).2 ≠ 0 → (GetIconLink articleUrl).1 ≠ []) := by
  rw [getIconLink_eq_resolve, resolve]
  cases hm : firstMatch platformTable articleUrl with
  | none => simp
  | some e =>
    have h1 : 1 ≤ e.code := (platformTable_code_range e (mem_of_firstMatch _ _ _ hm)).1
    refine ⟨fun h0 => ?_, fun _ => iconLinkHtml_ne_nil _ _⟩
    simp only at h0
    omega

/-- C7: the code returned by `GetIconLink` lies in 0..7: it is `IcoUnknown`
(0) or lies between `IcoMin` (1) and `IcoMax` (7) inclusive. -/
theorem getIconLink_code_range (articleUrl : GoString) :
    (0 ≤ (GetIconLink articleUrl).2 ∧ (GetIconLink articleUrl).2 ≤ 7) ∧
      ((GetIconLink articleUrl).2 = IcoUnknown ∨
        (IcoMin ≤ (GetIconLink articleUrl).2 ∧ (GetIconLink articleUrl).2 ≤ IcoMax)) := by
  unfold GetIconLink
  split_ifs <;>
    simp [IcoUnknown, IcoMin, IcoMax, IcoWechat, IcoJuejin, IcoZhihu, IcoTencent, IcoCsdn,
      IcoJianshu, IcoInfoq]

/-- C8: matching is by substring, not by domain boundary: every URL in which
"mp.weixin.qq.com" occurs anywhere gets code 1 and the Wechat html, whatever
else it contains; in particular "https://evil.com/mp.weixin.qq.com" has
code 1. -/
theorem getIconLink_wechat_anywhere :
    (∀ articleUrl : GoString, Occurs (ascii "mp.weixin.qq.com") articleUrl →
        GetIconLink articleUrl =
          (ascii "[<img src=\"" ++ ascii "https://mp.weixin.qq.com/favicon.ico"
            ++ ascii "\" weight=\"20\" height=\"20\">](" ++ articleUrl ++ ascii ")", 1)) ∧
      (GetIconLink (ascii "https://evil.com/mp.weixin.qq.com")).2 = 1 := by
  refine ⟨?_, by decide⟩
  intro u h
  have hc : Contains u wechatHost = true := (contains_iff _ _).2 h
  simp only [GetIconLink, hc, if_true, sprintf_icoFormat, iconLinkHtml, wechatIcoUrl, IcoWechat]

theorem getIconLink_wechat_anywhere_witness :
    GetIconLink (ascii "ftp://a.mp.weixin.qq.com.juejin.cn/") =
      (ascii "[<img src=\"" ++ ascii "https://mp.weixin.qq.com/favicon.ico"
        ++ ascii "\" weight=\"20\" height=\"20\">](" ++ ascii "ftp://a.mp.weixin.qq.com.juejin.cn/"
        ++ ascii ")", 1) :=
  getIconLink_wechat_anywhere.1 (ascii "ftp://a.mp.weixin.qq.com.juejin.cn/") (by decide)

/-- C9: `GetIconLink("https://mp.weixin.qq.com/s/abc123")` returns code 1 and
the html
`[<img src="https://mp.weixin.qq.com/favicon.ico" weight="20" height="20">](https://mp.weixin.qq.com/s/abc123)`,
and `GetIconLink("https://juejin.cn/post/999")` returns code 2. -/
theorem getIconLink_examples :
    GetIconLink (ascii "https://mp.weixin.qq.com/s/abc123") =
        (ascii "[<img src=\"https://mp.weixin.qq.com/favicon.ico\" weight=\"20\" height=\"20\">](https://mp.weixin.qq.com/s/abc123)", 1) ∧
      (GetIconLink (ascii "https://juejin.cn/post/999")).2 = 2 := by
  decide

/-- C10: `GetIconLink` applied to the empty string returns exactly `("", 0)`. -/
theorem getIconLink_empty : GetIconLink [] = ([], 0) := by
  decide

/-- C11: matching is case-sensitive with no normalization: a URL that
contains a host only in a different letter case (its lower-case form contains
the host) and none of the 7 hosts in their exact lower-case spelling is
unrecognized; in particular "https://MP.WEIXIN.QQ.COM/s/abc123" yields
`("", 0)`. -/
theorem getIconLink_case_sensitive :
    (∀ articleUrl : GoString,
        (∃ e ∈ platformTable, Occurs e.hostSubstring (lowerAscii articleUrl)) →
        (∀ e ∈ platformTable, ¬ Occurs e.hostSubstring articleUrl) →
        GetIconLink articleUrl = ([], 0)) ∧
      GetIconLink (ascii "https://MP.WEIXIN.QQ.COM/s/abc123") = ([], 0) := by
  refine ⟨?_, by decide⟩
  intro u _ hnone
  rw [getIconLink_eq_resolve, resolve, (firstMatch_eq_none_iff _ _).2 hnone]

theorem getIconLink_case_sensitive_witness :
    Occurs (ascii "juejin.cn") (lowerAscii (ascii "https://Juejin.CN/post/1")) ∧
      GetIconLink (ascii "https://Juejin.CN/post/1") = ([], 0) :=
  ⟨by decide, getIconLink_case_sensitive.1 (ascii "https://Juejin.CN/post/1")
    ⟨⟨2, ascii "juejin.cn", ascii "https://juejin.cn/favicon.ico"⟩, by decide, by decide⟩
    (by decide)⟩

/-- C12: `GetIconLink` is injective on recognized URLs: when `GetIconLink u`
and `GetIconLink v` return the same non-empty html, `u = v` and the codes are
equal, so the URL and the platform are determined by a non-empty html. -/
theorem getIconLink_html_injective (u v : GoString)
    (hne : (GetIconLink u).1 ≠ [])
    (heq : (GetIconLink u).1 = (GetIconLink v).1) :
    u = v ∧ (GetIconLink u).2 = (GetIconLink v).2 := by
  have huv : u = v := by
    rw [heq] at hne
    rw [getIconLink_eq_resolve u, getIconLink_eq_resolve v, resolve, resolve] at heq
    rw [getIconLink_eq_resolve v, resolve] at hne
    cases hv : firstMatch platformTable v with
    | none =>
      rw [hv] at hne
      exact absurd rfl hne
    | some e2 =>
      cases hu : firstMatch platformTable u with
      | none =>
        rw [hu, hv] at heq
        exact absurd heq.symm (iconLinkHtml_ne_nil _ _)
      | some e =>
        rw [hu, hv] at heq
        exact (iconLinkHtml_inj e e2 u v (mem_of_firstMatch _ _ _ hu)
          (mem_of_firstMatch _ _ _ hv) heq).2
  exact ⟨huv, by rw [huv]⟩

theorem getIconLink_html_injective_witness :
    (GetIconLink (ascii "https://blog.csdn.net/x/1")).1 ≠ [] ∧
      ascii "https://blog.csdn.net/x/1" = ascii "https://blog.csdn.net/x/1" ∧
      (GetIconLink (ascii "https://blog.csdn.net/x/1")).2 =
        (GetIconLink (ascii "https://blog.csdn.net/x/1")).2 :=
  ⟨by decide, getIconLink_html_injective (ascii "https://blog.csdn.net/x/1")
    (ascii "https://blog.csdn.net/x/1") (by decide) rfl⟩

/-- C13: extending a URL never loses a match and can only raise its
priority: when `u` is a contiguous substring of `w` and `GetIconLink u` has
code `c ≠ 0`, `GetIconLink w` has a code `c'` with `1 ≤ c' ≤ c`; and when
`GetIconLink w` has code 0, so has every substring of `w`. -/
theorem getIconLink_code_mono :
    (∀ (u w : GoString) (c : Int), Occurs u w → (GetIconLink u).2 = c → c ≠ 0 →
        1 ≤ (GetIconLink w).2 ∧ (GetIconLink w).2 ≤ c) ∧
      (∀ u w : GoString, Occurs u w → (GetIconLink w).2 = 0 → (GetIconLink u).2 = 0) := by
  have key : ∀ (u w : GoString), Occurs u w → (GetIconLink u).2 ≠ 0 →
      1 ≤ (GetIconLink w).2 ∧ (GetIconLink w).2 ≤ (GetIconLink u).2 := by
    intro u w huw hne
    rw [getIconLink_eq_resolve u, resolve] at hne ⊢
    rw [getIconLink_eq_resolve w]
    cases hm : firstMatch platformTable u with
    | none =>
      rw [hm] at hne
      exact absurd rfl hne
    | some e =>
      obtain ⟨he, pre, post, ht, _⟩ := (firstMatch_eq_some_iff _ _ _).1 hm
      exact resolve_code_le pre post e w ht (occurs_trans _ _ _ he huw)
  refine ⟨fun u w c huw hc hne => ?_, fun u w huw hw => ?_⟩
  · subst hc
    exact key u w huw hne
  · by_contra hne
    have := (key u w huw hne).1
    omega

theorem getIconLink_code_mono_witness :
    (1 ≤ (GetIconLink (ascii "https://infoq.cn/a?from=https://juejin.cn/post/1")).2 ∧
        (GetIconLink (ascii "https://infoq.cn/a?from=https://juejin.cn/post/1")).2 ≤ 7) ∧
      (GetIconLink (ascii "example.org")).2 = 0 :=
  ⟨getIconLink_code_mono.1 (ascii "https://infoq.cn/a")
      (ascii "https://infoq.cn/a?from=https://juejin.cn/post/1") 7 (by decide) (by decide)
      (by decide),
    getIconLink_code_mono.2 (ascii "example.org") (ascii "https://example.org/post/999")
      (by decide) (by decide)⟩

/-- C14: re-classifying an output gives the same platform: when
`GetIconLink articleUrl = (html, c)`, `GetIconLink html` returns code `c`;
the text placed before the URL brings in no earlier-declared host, and the
empty html of an unknown URL stays unknown. -/
theorem getIconLink_reclassify (articleUrl : GoString) :
    (GetIconLink (GetIconLink articleUrl).1).2 = (GetIconLink articleUrl).2 := by
  rw [getIconLink_eq_resolve articleUrl, resolve]
  cases hm : firstMatch platformTable articleUrl with
  | none =>
    show (GetIconLink []).2 = 0
    decide
  | some e =>
    show (GetIconLink (iconLinkHtml e.iconUrl articleUrl)).2 = e.code
    obtain ⟨he, pre, post, ht, hpre⟩ := (firstMatch_eq_some_iff _ _ _).1 hm
    have hclean := platformTable_head_clean
    rw [ht, List.pairwise_append] at hclean
    have hm2 : firstMatch platformTable (iconLinkHtml e.iconUrl articleUrl) = some e := by
      refine (firstMatch_eq_some_iff _ _ _).2
        ⟨occurs_trans _ _ _ he (occurs_url_iconLinkHtml _ _), pre, post, ht, fun q hq hocc => ?_⟩
      obtain ⟨h40, h41, hne⟩ := platformTable_host_chars q (by simp [ht, hq])
      rcases occurs_iconLinkHtml_cases _ _ _ h40 h41 hne hocc with h1 | h1
      · exact hclean.2.2 q hq e (List.mem_cons_self _ _) h1
      · exact hpre q hq h1
    rw [getIconLink_eq_resolve, resolve, hm2]

/-- C15: no branch of `GetIconLink` is dead: every code in 0..7 is returned
for some URL; no platform's host contains the host of an earlier-declared
platform, and each platform's own host string is classified as that
platform. -/
theorem getIconLink_no_dead_branch :
    (∀ c : Int, 0 ≤ c → c ≤ 7 → ∃ articleUrl : GoString, (GetIconLink articleUrl).2 = c) ∧
      platformTable.Pairwise (fun q e => ¬ Occurs q.hostSubstring e.hostSubstring) ∧
      (∀ e ∈ platformTable, (GetIconLink e.hostSubstring).2 = e.code) := by
  refine ⟨fun c h0 h7 => ?_, by decide, by decide⟩
  interval_cases c
  · exact ⟨[], by decide⟩
  · exact ⟨wechatHost, by decide⟩
  · exact ⟨juejinHost, by decide⟩
  · exact ⟨zhihuHost, by decide⟩
  · exact ⟨tencentHost, by decide⟩
  · exact ⟨csdnHost, by decide⟩
  · exact ⟨jianshuHost, by decide⟩
  · exact ⟨infoqHost, by decide⟩

theorem getIconLink_no_dead_branch_witness :
    ∃ articleUrl : GoString, (GetIconLink articleUrl).2 = 3 :=
  getIconLink_no_dead_branch.1 3 (by decide) (by decide)

end toolx
